import Mathlib

/-!
# Verification of the AI-Web-Scrapper scheduling / change-detection core

Shallow embedding of the two stateful subsystems of the repository:

* the monitoring service (`src/utils/monitoringService.ts`), its pure change
  detector `detectChanges`, the per-check state update of `checkForChanges`,
  and the selector extraction (`src/utils/contentExtractor.ts`);
* the background job queue (`JobQueue` in the job-queue module), its
  scheduling loop `processJobs`, worker lifecycle `processJob`, TTL sweep
  `cleanupOldJobs`, and the HTTP `DELETE` route
  (`src/app/api/scraper/status/[jobId]/route.ts`).

JavaScript `Record<string,string>` objects are modelled as insertion-ordered
association lists with unique keys (`Rec`); `Map<string, T>` iteration order is
insertion order, modelled as a `List`.  Timestamps (`Date.now()`,
`toISOString()`) are modelled as `Nat` milliseconds; ISO-8601 strings of the
fixed `toISOString` format compare lexicographically exactly as the underlying
instants, so `<` on `Nat` is faithful.  `async` control flow is sequentialised
at its observable suspension points: each synchronous segment of the source is
one atomic state transformation.
-/

namespace WebScrapper

/-! ## JavaScript record model -/

/-- A JS `Record<string, string>`: insertion-ordered key/value pairs,
at most one entry per key (maintained by `recSet`). -/
abbrev Rec : Type := List (String × String)

/-- `obj[k]` as a lookup: first entry with key `k` (keys are unique). -/
def recGet (r : Rec) (k : String) : Option String :=
  (List.find? (fun e => e.1 == k) r).map (·.2)

/-- `obj[k] = v`: update in place if present (keeping its position), else append. -/
def recSet : Rec → String → String → Rec
  | [], k, v => [(k, v)]
  | e :: rest, k, v => if e.1 == k then (k, v) :: rest else e :: recSet rest k v

/-- The keys of a record, in iteration (insertion) order. -/
def recKeys (r : Rec) : List String := r.map (·.1)

/-- JS truthiness test `!obj[k]` for a string-valued record: true when the key
is absent (`undefined`) or the value is the empty string (the only falsy
string). -/
def jsFalsy (r : Rec) (k : String) : Bool :=
  match recGet r k with
  | none => true
  | some v => v == ""

/-! ## Change detector (`MonitoringService.detectChanges`) -/

inductive ChangeType
  | added
  | removed
  | modified
deriving DecidableEq, Repr

structure Change where
  selector : String
  changeType : ChangeType
  oldContent : Option String := none
  newContent : Option String := none
deriving DecidableEq, Repr

/-- `MonitoringService.detectChanges(previousContent, currentContent)`.
First loop over `Object.entries(currentContent)`: `!previousContent[selector]`
pushes an `added` change, else `previousContent[selector] !== content` pushes a
`modified` change.  Second loop over `Object.entries(previousContent)`:
`!currentContent[selector]` pushes a `removed` change.  The two loops push into
one array, hence the append. -/
def detectChanges (previousContent currentContent : Rec) : List Change :=
  let newOrModified : List Change := List.filterMap (fun e =>
    if jsFalsy previousContent e.1 then
      some { selector := e.1, changeType := .added, newContent := some e.2 }
    else if recGet previousContent e.1 ≠ some e.2 then
      some { selector := e.1, changeType := .modified,
             oldContent := recGet previousContent e.1, newContent := some e.2 }
    else none) currentContent
  let removed : List Change := List.filterMap (fun e =>
    if jsFalsy currentContent e.1 then
      some { selector := e.1, changeType := .removed, oldContent := some e.2 }
    else none) previousContent
  newOrModified ++ removed

/-! ## Selector extraction (`extractContentFromSelectors`)

The cheerio HTML parser is the external extraction capability; `query` stands
for `$(selector)` applied to the loaded document: it returns the list of the
matched elements' text contents, or an error when the selector crashes cheerio
(the `catch` branch of the source). -/

/-- `extractContentFromSelectors(html, selectors)`: for each selector in order,
`extractedContent[selector] = ''` when no element matches (or on an extraction
error), the single element's trimmed text when exactly one matches, and the
trimmed texts joined by `' | '` when several match. -/
def extractContentFromSelectors (query : String → Except String (List String))
    (selectors : List String) : Rec :=
  selectors.foldl (fun extractedContent selector =>
    match query selector with
    | .error _ => recSet extractedContent selector ""
    | .ok elements =>
      match elements with
      | [] => recSet extractedContent selector ""
      | [single] => recSet extractedContent selector single.trim
      | _ => recSet extractedContent selector
          (String.intercalate " | " (elements.map String.trim))) []

/-! ## Monitoring service state (`MonitoringJob`, `checkForChanges`) -/

structure HistoryEntry where
  timestamp : Nat
  selector : String
  changeType : ChangeType
  oldContent : Option String := none
  newContent : Option String := none
deriving DecidableEq, Repr

structure Notifications where
  email : Option String := none
  webhook : Option String := none
  enabled : Bool
deriving DecidableEq, Repr

structure MonitoringJob where
  id : String
  url : String
  name : String
  userId : String
  isActive : Bool
  createdAt : Nat
  lastChecked : Option Nat := none
  lastChange : Option Nat := none
  checkInterval : Nat
  selectors : List String
  previousContent : Rec
  notifications : Notifications
  changeHistory : List HistoryEntry
deriving DecidableEq, Repr

structure MonitoringResult where
  hasChanges : Bool
  changes : List Change
  checkedAt : Option Nat
deriving DecidableEq, Repr

/-- The `{ timestamp: ..., ...change }` object pushed onto `changeHistory`. -/
def stampChange (now : Nat) (c : Change) : HistoryEntry :=
  { timestamp := now, selector := c.selector, changeType := c.changeType,
    oldContent := c.oldContent, newContent := c.newContent }

/-- `array.slice(-n)`: the last `n` elements (the whole list when shorter). -/
def sliceLast (n : Nat) (l : List HistoryEntry) : List HistoryEntry :=
  l.drop (l.length - n)

/-- The state update and return value of `checkForChanges` after a successful
fetch and extraction, given the freshly extracted `currentContent` and the
current time: replace `previousContent`, set `lastChecked`; when the diff is
non-empty set `lastChange`, push each stamped change onto `changeHistory` and
truncate it to the last 50 entries when it exceeds 50; return
`{hasChanges, changes, checkedAt: job.lastChecked}`. -/
def checkForChangesUpdate (job : MonitoringJob) (currentContent : Rec)
    (now : Nat) : MonitoringJob × MonitoringResult :=
  let changes := detectChanges job.previousContent currentContent
  let job1 := { job with previousContent := currentContent, lastChecked := some now }
  let job2 :=
    if changes.length > 0 then
      let pushed := { job1 with
        lastChange := some now,
        changeHistory := job1.changeHistory ++ changes.map (stampChange now) }
      if pushed.changeHistory.length > 50 then
        { pushed with changeHistory := sliceLast 50 pushed.changeHistory }
      else pushed
    else job1
  (job2, { hasChanges := decide (changes.length > 0), changes := changes,
           checkedAt := job2.lastChecked })

/-- The result of `fetch(job.url, ...)` when it does not throw. -/
structure FetchResponse where
  ok : Bool
  status : Nat
  statusText : String
  body : String
deriving DecidableEq, Repr

/-- One run of `checkForChanges` on a job, with the external fetch outcome and
the extraction capability as parameters.  A thrown fetch error (network error
or timeout) or a non-OK HTTP status reaches the `catch` block before any state
is touched and is re-thrown (`Except.error`); otherwise the success path
updates the job. -/
def checkForChanges (job : MonitoringJob)
    (fetchResult : Except String FetchResponse)
    (query : String → Except String (List String)) (now : Nat) :
    Except String (MonitoringJob × MonitoringResult) :=
  match fetchResult with
  | .error e => .error e
  | .ok response =>
    if !response.ok then
      .error ("HTTP " ++ toString response.status ++ ": " ++ response.statusText)
    else
      let currentContent := extractContentFromSelectors query job.selectors
      .ok (checkForChangesUpdate job currentContent now)

/-- A timer-driven tick: `startMonitoring`'s interval callback wraps
`checkForChanges` in `try ... catch` that only logs, so a failed tick leaves
the stored job as it was. -/
def monitoringTick (job : MonitoringJob)
    (fetchResult : Except String FetchResponse)
    (query : String → Except String (List String)) (now : Nat) : MonitoringJob :=
  match checkForChanges job fetchResult query now with
  | .ok (job', _) => job'
  | .error _ => job

/-- `addMonitoringJob`: caller-supplied fields plus a generated id,
`createdAt`, an empty `previousContent` and an empty `changeHistory`. -/
def addMonitoringJob (jobId url name userId : String) (isActive : Bool)
    (checkInterval : Nat) (selectors : List String)
    (notifications : Notifications) (now : Nat) : MonitoringJob :=
  { id := jobId, url := url, name := name, userId := userId, isActive := isActive,
    createdAt := now, checkInterval := checkInterval, selectors := selectors,
    previousContent := [], notifications := notifications, changeHistory := [] }

/-- The fields an `update(targetId, patch)` may carry: the configuration
fields of the target (the internal bookkeeping fields — snapshot, history,
timestamps — are not part of the update contract). -/
structure MonitoringPatch where
  url : Option String := none
  name : Option String := none
  isActive : Option Bool := none
  checkInterval : Option Nat := none
  selectors : Option (List String) := none
  notifications : Option Notifications := none
deriving DecidableEq, Repr

/-- `updateMonitoringJob`'s `{ ...job, ...updates }` merge for a configuration
patch. -/
def updateMonitoringJob (job : MonitoringJob) (patch : MonitoringPatch) :
    MonitoringJob :=
  { job with
    url := patch.url.getD job.url,
    name := patch.name.getD job.name,
    isActive := patch.isActive.getD job.isActive,
    checkInterval := patch.checkInterval.getD job.checkInterval,
    selectors := patch.selectors.getD job.selectors,
    notifications := patch.notifications.getD job.notifications }

/-! ## Job queue (`JobQueue`)

The `Map<string, ScrapingJob>` is modelled as a `List ScrapingJob` in
insertion order (its iteration order); keys (job ids) are unique in a `Map`,
which the reachable states maintain because submitted ids are fresh.
`options` and `result` are opaque payloads, modelled as strings. -/

inductive JobStatus
  | pending
  | running
  | completed
  | failed
deriving DecidableEq, Repr

structure ScrapingJob where
  id : String
  url : String
  options : String
  status : JobStatus
  progress : Nat
  createdAt : Nat
  startedAt : Option Nat := none
  completedAt : Option Nat := none
  result : Option String := none
  error : Option String := none
  userId : Option String := none
deriving DecidableEq, Repr

structure JobQueueState where
  jobs : List ScrapingJob
  isProcessing : Bool
  activeJobs : Nat
deriving DecidableEq, Repr

/-- `maxConcurrentJobs = 3`. -/
def maxConcurrentJobs : Nat := 3

/-- `jobQueue.getJob(jobId)`: `Map.get`, i.e. the entry keyed by `jobId`. -/
def getJob (s : JobQueueState) (jobId : String) : Option ScrapingJob :=
  s.jobs.find? (fun j => j.id == jobId)

/-- `getNextPendingJob()`: `Array.from(this.jobs.values()).find(job =>
job.status === 'pending')` — the first pending job in insertion order. -/
def getNextPendingJob (s : JobQueueState) : Option ScrapingJob :=
  s.jobs.find? (fun j => j.status == .pending)

/-- The synchronous prefix of `processJob(job)` run when a worker is started:
`job.status = 'running'; job.startedAt = now; job.progress = 10`. -/
def markRunning (j : ScrapingJob) (now : Nat) : ScrapingJob :=
  { j with status := .running, startedAt := some now, progress := 10 }

/-- Mutating the job object returned by `getNextPendingJob` in place: replace
the first pending entry of the map (in iteration order) by its started
version.  `none` when no pending job exists. -/
def startFirstPending (now : Nat) : List ScrapingJob → Option (List ScrapingJob)
  | [] => none
  | j :: rest =>
    if j.status == .pending then some (markRunning j now :: rest)
    else (startFirstPending now rest).map (j :: ·)

/-- The `while (this.activeJobs < this.maxConcurrentJobs)` loop of
`processJobs`: pick the next pending job, increment `activeJobs`, start the
worker (whose synchronous prefix marks the job running); stop when the pool is
full or no pending job remains.  Each guard-true iteration increments
`activeJobs`, so `maxConcurrentJobs - activeJobs` bounds the iteration count
and is used as fuel; when the fuel runs out the guard is false and the loop
would stop anyway. -/
def processJobsLoop : Nat → JobQueueState → Nat → JobQueueState
  | 0, s, _ => s
  | fuel + 1, s, now =>
    if s.activeJobs < maxConcurrentJobs then
      match startFirstPending now s.jobs with
      | none => s
      | some jobs' =>
        processJobsLoop fuel { s with jobs := jobs', activeJobs := s.activeJobs + 1 } now
    else s

/-- `processJobs()`: re-entrancy guard on `isProcessing`, then the scheduling
loop. -/
def processJobs (s : JobQueueState) (now : Nat) : JobQueueState :=
  if s.isProcessing then s
  else
    let s1 := { s with isProcessing := true }
    let s2 := processJobsLoop (maxConcurrentJobs - s1.activeJobs) s1 now
    { s2 with isProcessing := false }

/-- `addJob(url, options, userId)`: enqueue a fresh `pending` job (a `Map.set`
with a fresh key appends in iteration order), then trigger `processJobs` (the
`!this.isProcessing` test is the guard inside `processJobs`). -/
def addJob (s : JobQueueState) (jobId url options : String)
    (userId : Option String) (now : Nat) : JobQueueState :=
  let job : ScrapingJob :=
    { id := jobId, url := url, options := options, status := .pending,
      progress := 0, createdAt := now, userId := userId }
  processJobs { s with jobs := s.jobs ++ [job] } now

inductive JobOutcome
  | success (result : String)
  | failure (msg : String)
deriving DecidableEq, Repr

/-- `Map.set` on an existing key / mutation of the stored job object: update
the entry with the given id in place, keeping its position. -/
def updateJobList (jobId : String) (f : ScrapingJob → ScrapingJob) :
    List ScrapingJob → List ScrapingJob
  | [] => []
  | j :: rest =>
    if j.id == jobId then f j :: rest else j :: updateJobList jobId f rest

/-- The terminal field writes of `processJob`: on success set `progress`,
`result`, `status = 'completed'`, `completedAt`, final `progress = 100`; on
failure set `status = 'failed'`, `error`, `completedAt`. -/
def finishedJob (outcome : JobOutcome) (now : Nat) (j : ScrapingJob) :
    ScrapingJob :=
  match outcome with
  | .success r =>
    { j with progress := 100, result := some r, status := .completed,
             completedAt := some now }
  | .failure e =>
    { j with status := .failed, error := some e, completedAt := some now }

/-- The tail of `processJob` after the awaited scraping settles, together with
the `.finally` bookkeeping: the terminal field writes on the stored job
object, and `activeJobs` decremented by the `.finally` handler. -/
def finishJob (s : JobQueueState) (jobId : String) (outcome : JobOutcome)
    (now : Nat) : JobQueueState :=
  { s with
    jobs := updateJobList jobId (finishedJob outcome now) s.jobs,
    activeJobs := s.activeJobs - 1 }

/-- A mid-run progress checkpoint (`job.progress = 30` after the import,
`job.progress = 90` after the scraping call). -/
def setProgress (s : JobQueueState) (jobId : String) (p : Nat) : JobQueueState :=
  { s with jobs := updateJobList jobId (fun j => { j with progress := p }) s.jobs }

/-- `jobQueue.deleteJob(jobId)`: `Map.delete` removes the entry keyed by
`jobId` (there is at most one). -/
def deleteJob (s : JobQueueState) (jobId : String) : JobQueueState :=
  { s with jobs := s.jobs.eraseP (fun j => j.id == jobId) }

/-- The responses of the `DELETE /api/scraper/status/[jobId]` route:
`badRequest` is HTTP 400 `'Job ID is required'`, `notFound` is HTTP 404,
`conflict` is HTTP 400 `'Cannot delete running or pending jobs'` (the spec's
`ConflictError`), `ok` is HTTP 200. -/
inductive DeleteResult
  | ok
  | badRequest
  | notFound
  | conflict
deriving DecidableEq, Repr

/-- The `DELETE` route handler: reject an empty id (`!jobId`), 404 on an
unknown id, refuse to delete a running or pending job, otherwise remove the
job from the queue. -/
def deleteRoute (s : JobQueueState) (jobId : String) :
    DeleteResult × JobQueueState :=
  if jobId == "" then (.badRequest, s)
  else
    match getJob s jobId with
    | none => (.notFound, s)
    | some job =>
      if job.status == .running || job.status == .pending then (.conflict, s)
      else (.ok, deleteJob s jobId)

/-- `24 * 60 * 60 * 1000` milliseconds. -/
def retentionWindowMs : Nat := 24 * 60 * 60 * 1000

/-- Whether `cleanupOldJobs` removes a job: terminal status, a set
`completedAt` (an ISO string is truthy), and `completedAt < cutoffTime`. -/
def sweepRemoves (now : Nat) (job : ScrapingJob) : Bool :=
  (job.status == .completed || job.status == .failed) &&
    (match job.completedAt with
     | some t => decide (t < now - retentionWindowMs)
     | none => false)

/-- `cleanupOldJobs()`: delete every entry whose status is terminal and whose
`completedAt` is older than the 24-hour cutoff. -/
def cleanupOldJobs (s : JobQueueState) (now : Nat) : JobQueueState :=
  { s with jobs := s.jobs.filter (fun job => !sweepRemoves now job) }

/-! ## The job-queue transition system

One step per observable atomic segment of the source: a `submit` call (with a
fresh generated id), a worker finishing (it finishes the job it started, which
is still `running`: only terminal jobs can be deleted and the sweep only
removes terminal jobs, so a running job is still present), a mid-run progress
checkpoint, the deferred `setTimeout(() => this.processJobs(), 1000)` pass, an
HTTP `DELETE`, and the hourly cleanup sweep. -/

inductive Step : JobQueueState → JobQueueState → Prop
  | submit (s : JobQueueState) (jobId url options : String)
      (userId : Option String) (now : Nat)
      (hfresh : getJob s jobId = none) :
      Step s (addJob s jobId url options userId now)
  | finish (s : JobQueueState) (jobId : String) (outcome : JobOutcome)
      (now : Nat) (j : ScrapingJob)
      (hj : getJob s jobId = some j) (hrun : j.status = .running) :
      Step s (finishJob s jobId outcome now)
  | progressTick (s : JobQueueState) (jobId : String) (p : Nat)
      (j : ScrapingJob)
      (hj : getJob s jobId = some j) (hrun : j.status = .running)
      (hp : p = 30 ∨ p = 90) :
      Step s (setProgress s jobId p)
  | schedule (s : JobQueueState) (now : Nat) :
      Step s (processJobs s now)
  | httpDelete (s : JobQueueState) (jobId : String) :
      Step s (deleteRoute s jobId).2
  | sweep (s : JobQueueState) (now : Nat) :
      Step s (cleanupOldJobs s now)

/-- The queue singleton starts with an empty map, `isProcessing = false`,
`activeJobs = 0`. -/
def initState : JobQueueState :=
  { jobs := [], isProcessing := false, activeJobs := 0 }

/-- States reachable from the initial queue state. -/
inductive Reachable : JobQueueState → Prop
  | init : Reachable initState
  | step {s s' : JobQueueState} : Reachable s → Step s s' → Reachable s'

/-- The number of jobs whose status is `running`. -/
def runningCount (s : JobQueueState) : Nat :=
  (s.jobs.filter (fun j => j.status == .running)).length

/-! ## Auxiliary definitions used by the verification -/

/-- The content string `extractContentFromSelectors` stores for one selector
(the body of its loop, as a function of the query outcome). -/
def extractValue (query : String → Except String (List String))
    (selector : String) : String :=
  match query selector with
  | .error _ => ""
  | .ok [] => ""
  | .ok [single] => single.trim
  | .ok elements => String.intercalate " | " (elements.map String.trim)

/-- Run a sequence of successful checks against a monitoring target, each with
its freshly extracted content map and its check time. -/
def runChecks (job : MonitoringJob) : List (Rec × Nat) → MonitoringJob
  | [] => job
  | (cur, now) :: rest => runChecks (checkForChangesUpdate job cur now).1 rest

/-- A fresh monitoring target watching the single selector `h1`. -/
def initialTarget : MonitoringJob :=
  { id := "m1", url := "http://example.com", name := "watch", userId := "u1",
    isActive := true, createdAt := 0, checkInterval := 60, selectors := ["h1"],
    previousContent := [], notifications := { enabled := false },
    changeHistory := [] }

/-- Sixty checks at times 1..60, the `h1` content changing every time. -/
def sixtyInputs : List (Rec × Nat) :=
  (List.range 60).map (fun k => ([("h1", toString (k + 1))], k + 1))

/-- The 50 most recent of the 60 change entries produced by `sixtyInputs`:
the modifications observed at times 11..60, in chronological order. -/
def expectedHistory : List HistoryEntry :=
  (List.range 50).map (fun i =>
    { timestamp := i + 11, selector := "h1", changeType := .modified,
      oldContent := some (toString (i + 10)),
      newContent := some (toString (i + 11)) })

/-- A concrete extraction capability for witnesses: `h1` matches nothing,
every other selector matches one element. -/
def sampleQuery : String → Except String (List String) :=
  fun s => if s = "h1" then .ok [] else .ok [" Hello "]

/-- A state with one submitted job, used to witness the reachability-based
theorems (the scheduling pass triggered by `submit` starts it at once). -/
def oneJobState : JobQueueState :=
  addJob initState "job_1" "http://example.com" "opts" none 5

/-- How one scheduling pass may transform the job list: each entry is either
untouched or was pending and got marked running (at the pass time `now`).
`processJobsLoop` realises a particular such transformation (marking a prefix
of the pending subsequence); this relation is what per-entry evolution
arguments need. -/
inductive PassRel (now : Nat) : List ScrapingJob → List ScrapingJob → Prop
  | nil : PassRel now [] []
  | same (j : ScrapingJob) {l l' : List ScrapingJob} :
      PassRel now l l' → PassRel now (j :: l) (j :: l')
  | mark (j : ScrapingJob) {l l' : List ScrapingJob} :
      j.status = .pending → PassRel now l l' →
      PassRel now (j :: l) (markRunning j now :: l')

/-- The pending record of the fourth submission in `fifoScenario`. -/
def job4Pending : ScrapingJob :=
  { id := "job_4", url := "u", options := "o", status := .pending,
    progress := 0, createdAt := 4 }

/-- A completed job finished well inside the retention window. -/
def job1Completed : ScrapingJob :=
  { id := "job_1", url := "u1", options := "o", status := .completed,
    progress := 100, createdAt := 0, startedAt := some 1,
    completedAt := some 10, result := some "r" }

/-- A running job. -/
def job2Running : ScrapingJob :=
  { id := "job_2", url := "u2", options := "o", status := .running,
    progress := 10, createdAt := 2, startedAt := some 3 }

/-- A state holding one completed and one running job, used to witness the
delete/cleanup theorems. -/
def mixedState : JobQueueState :=
  { jobs := [job1Completed, job2Running], isProcessing := false, activeJobs := 1 }

/-- Running-job count of a job list. -/
def runningCountL (l : List ScrapingJob) : Nat :=
  (l.filter (fun j => j.status == .running)).length

/-- The FIFO relation between queue entries: whenever an earlier entry is
still pending, every later entry is still pending too (equivalently, no later
entry has been started while an earlier one waits). -/
def FifoRel (a b : ScrapingJob) : Prop :=
  a.status = .pending → b.status = .pending

/-- The inductive invariant of the job queue. -/
structure QueueInv (s : JobQueueState) : Prop where
  notProcessing : s.isProcessing = false
  runningLe : runningCountL s.jobs ≤ s.activeJobs
  activeLe : s.activeJobs ≤ maxConcurrentJobs
  nodupIds : (s.jobs.map (fun j => j.id)).Nodup
  fifo : s.jobs.Pairwise FifoRel

/-- A reachable scenario: four submissions saturate the pool (three workers
running, the fourth job pending), then the first worker finishes, freeing one
slot while `job_4` is still pending. -/
def fifoScenario : JobQueueState :=
  finishJob (addJob (addJob (addJob (addJob initState "job_1" "u" "o" none 1)
    "job_2" "u" "o" none 2) "job_3" "u" "o" none 3) "job_4" "u" "o" none 4)
    "job_1" (.success "r") 5

/-! ## Record lemmas -/

lemma recGet_cons (e : String × String) (r : List (String × String)) (k : String) :
    recGet (e :: r : Rec) k = if e.1 == k then some e.2 else recGet r k := by
  by_cases h : e.1 == k <;> simp [recGet, List.find?, h]

lemma recGet_recSet_self (r : Rec) (k v : String) :
    recGet (recSet r k v) k = some v := by
  induction r with
  | nil => simp [recSet, recGet, List.find?]
  | cons e rest ih =>
    by_cases h : e.1 == k
    · simp [recSet, h, recGet, List.find?]
    · simp only [recSet, h, if_false, Bool.false_eq_true]
      rw [recGet_cons]
      simp [h, ih]

lemma recGet_recSet_ne (r : Rec) (k v k' : String) (h : k' ≠ k) :
    recGet (recSet r k v) k' = recGet r k' := by
  induction r with
  | nil =>
    have : (k == k') = false := by simp [Ne.symm h]
    simp [recSet, recGet, List.find?, this]
  | cons e rest ih =>
    by_cases he : e.1 == k
    · have hk : (k == k') = false := by simp [Ne.symm h]
      have he' : e.1 = k := by simpa using he
      rw [recSet]
      simp only [he, if_true]
      rw [recGet_cons, recGet_cons]
      simp [hk, he', Ne.symm h]
    · rw [recSet]
      simp only [he, Bool.false_eq_true, if_false]
      rw [recGet_cons, recGet_cons, ih]

lemma recKeys_recSet_mem (r : Rec) (k v : String) (h : k ∈ recKeys r) :
    recKeys (recSet r k v) = recKeys r := by
  induction r with
  | nil => simp [recKeys] at h
  | cons e rest ih =>
    by_cases he : e.1 == k
    · have he' : e.1 = k := by simpa using he
      simp [recSet, he, recKeys, he']
    · have he' : e.1 ≠ k := by simpa using he
      simp only [recKeys, List.map_cons, List.mem_cons] at h
      rcases h with h | h
      · exact absurd h.symm (by simpa using he)
      · simp only [recSet, he, Bool.false_eq_true, if_false, recKeys, List.map_cons,
          List.cons.injEq, true_and]
        exact ih (by simpa [recKeys] using h)

lemma recKeys_recSet_notMem (r : Rec) (k v : String) (h : k ∉ recKeys r) :
    recKeys (recSet r k v) = recKeys r ++ [k] := by
  induction r with
  | nil => simp [recSet, recKeys]
  | cons e rest ih =>
    simp only [recKeys, List.map_cons, List.mem_cons, not_or] at h
    have he : (e.1 == k) = false := by simp [Ne.symm h.1]
    simp only [recSet, he, Bool.false_eq_true, if_false, recKeys, List.map_cons,
      List.cons_append, List.cons.injEq, true_and]
    exact ih (by simpa [recKeys] using h.2)

/-! ## Extraction lemmas -/

lemma extractContentFromSelectors_eq_fold
    (query : String → Except String (List String)) (selectors : List String) :
    extractContentFromSelectors query selectors =
      selectors.foldl (fun acc sel => recSet acc sel (extractValue query sel)) [] := by
  unfold extractContentFromSelectors
  congr 1
  funext acc sel
  unfold extractValue
  cases h : query sel with
  | error e => rfl
  | ok elements => cases elements with
    | nil => rfl
    | cons a rest => cases rest with
      | nil => rfl
      | cons b rest' => rfl

lemma extract_fold_get_notMem (query : String → Except String (List String))
    (sels : List String) (acc : Rec) (k : String) (h : k ∉ sels) :
    recGet (sels.foldl (fun acc sel => recSet acc sel (extractValue query sel)) acc) k =
      recGet acc k := by
  induction sels generalizing acc with
  | nil => rfl
  | cons s rest ih =>
    simp only [List.mem_cons, not_or] at h
    rw [List.foldl_cons, ih _ h.2, recGet_recSet_ne _ _ _ _ h.1]

lemma extract_fold_get_mem (query : String → Except String (List String))
    (sels : List String) (acc : Rec) (k : String)
    (hnd : sels.Nodup) (h : k ∈ sels) :
    recGet (sels.foldl (fun acc sel => recSet acc sel (extractValue query sel)) acc) k =
      some (extractValue query k) := by
  induction sels generalizing acc with
  | nil => cases h
  | cons s rest ih =>
    rcases List.mem_cons.mp h with rfl | hm
    · have hk : k ∉ rest := (List.nodup_cons.mp hnd).1
      rw [List.foldl_cons, extract_fold_get_notMem query rest _ k hk, recGet_recSet_self]
    · rw [List.foldl_cons]
      exact ih _ (List.nodup_cons.mp hnd).2 hm

lemma extract_fold_keys (query : String → Except String (List String))
    (sels : List String) (acc : Rec)
    (hnd : sels.Nodup) (hdis : ∀ s ∈ sels, s ∉ recKeys acc) :
    recKeys (sels.foldl (fun acc sel => recSet acc sel (extractValue query sel)) acc) =
      recKeys acc ++ sels := by
  induction sels generalizing acc with
  | nil => simp
  | cons s rest ih =>
    rw [List.foldl_cons, ih _ (List.nodup_cons.mp hnd).2 ?_, recKeys_recSet_notMem _ _ _
      (hdis s (List.mem_cons_self s rest))]
    · simp
    · intro t ht
      rw [recKeys_recSet_notMem _ _ _ (hdis s (List.mem_cons_self s rest))]
      simp only [List.mem_append, List.mem_singleton, not_or]
      exact ⟨hdis t (List.mem_cons_of_mem s ht),
        fun hts => (List.nodup_cons.mp hnd).1 (hts ▸ ht)⟩

lemma recGet_none_of_notMem_keys (r : Rec) (k : String) (h : k ∉ recKeys r) :
    recGet r k = none := by
  induction r with
  | nil => rfl
  | cons e rest ih =>
    simp only [recKeys, List.map_cons, List.mem_cons, not_or] at h
    rw [recGet_cons]
    have : (e.1 == k) = false := by simp [Ne.symm h.1]
    simp only [this, Bool.false_eq_true, if_false]
    exact ih (by simpa [recKeys] using h.2)

/-! ## Change-detector lemmas -/

lemma removed_mem_detectChanges (prev cur : Rec) (sel content : String)
    (hmem : (sel, content) ∈ prev) (hcur : recGet cur sel = none) :
    ({ selector := sel, changeType := .removed, oldContent := some content } : Change) ∈
      detectChanges prev cur := by
  unfold detectChanges
  apply List.mem_append_right
  apply List.mem_filterMap.mpr
  refine ⟨(sel, content), hmem, ?_⟩
  simp [jsFalsy, hcur]

/-! ## Claim theorems: monitoring -/

/-- C1: the claim fails on the code.  The source tests presence with the JS
truthiness check `!previousContent[selector]` (resp. `!currentContent[selector]`),
which also fires for a present entry whose content is the empty string — a
value the data model explicitly allows ("selector not found").  At
`previous = {"h1": ""}` and `current = {"h1": ""}` the claim demands an empty
diff (equal content strings), but the code emits an `added` change and a
spurious `removed` change for `"h1"`. -/
theorem detectChanges_empty_string_counterexample :
    detectChanges [("h1", "")] [("h1", "")] =
      [{ selector := "h1", changeType := .added, newContent := some "" },
       { selector := "h1", changeType := .removed, oldContent := some "" }] := by
  decide

/-- C9: a failed fetch (a thrown network/timeout error or a non-OK HTTP
status) reaches the catch block before any state is written: `checkForChanges`
propagates the error to the caller of `checkNow`, and the timer-driven tick
wrapper swallows it, leaving the stored target exactly as it was (snapshot,
lastChecked, lastChange and changeHistory untouched, no failure mark). -/
theorem fetch_failure_leaves_target_untouched (job : MonitoringJob) (e : String)
    (query : String → Except String (List String)) (now : Nat)
    (st : Nat) (stx body : String) :
    checkForChanges job (.error e) query now = .error e ∧
    monitoringTick job (.error e) query now = job ∧
    checkForChanges job (.ok { ok := false, status := st, statusText := stx, body := body })
        query now = .error ("HTTP " ++ toString st ++ ": " ++ stx) ∧
    monitoringTick job (.ok { ok := false, status := st, statusText := stx, body := body })
        query now = job := by
  refine ⟨rfl, rfl, ?_, ?_⟩ <;> simp [checkForChanges, monitoringTick]

/-- C10: after a successful check the snapshot's key list is exactly the list
of configured selectors (the configured selectors being pairwise distinct, as
an ordered set); a selector matching nothing is present and maps to the empty
string; a selector no longer configured is absent from the fresh snapshot and,
if it was in the previous snapshot, yields a `removed` diff entry rather than
being silently dropped. -/
theorem snapshot_keys_are_configured_selectors
    (query : String → Except String (List String)) (selectors : List String)
    (prev : Rec) (sel content : String) :
    (selectors.Nodup → recKeys (extractContentFromSelectors query selectors) = selectors) ∧
    (selectors.Nodup → sel ∈ selectors → query sel = .ok [] →
      recGet (extractContentFromSelectors query selectors) sel = some "") ∧
    (sel ∉ selectors → recGet (extractContentFromSelectors query selectors) sel = none) ∧
    ((sel, content) ∈ prev → sel ∉ selectors →
      ({ selector := sel, changeType := .removed, oldContent := some content } : Change) ∈
        detectChanges prev (extractContentFromSelectors query selectors)) := by
  have hnot : ∀ h : sel ∉ selectors,
      recGet (extractContentFromSelectors query selectors) sel = none := by
    intro h
    rw [extractContentFromSelectors_eq_fold, extract_fold_get_notMem query selectors [] sel h]
    rfl
  refine ⟨?_, ?_, hnot, ?_⟩
  · intro hnd
    rw [extractContentFromSelectors_eq_fold,
      extract_fold_keys query selectors [] hnd (by simp [recKeys])]
    rfl
  · intro hnd hm hq
    rw [extractContentFromSelectors_eq_fold,
      extract_fold_get_mem query selectors [] sel hnd hm]
    simp [extractValue, hq]
  · intro hmem hno
    exact removed_mem_detectChanges _ _ _ _ hmem (hnot hno)

/-- Witness for C10 at a concrete query, selector list and stale snapshot. -/
theorem snapshot_keys_are_configured_selectors_witness :
    recKeys (extractContentFromSelectors sampleQuery ["h1", "h2"]) = ["h1", "h2"] ∧
    recGet (extractContentFromSelectors sampleQuery ["h1", "h2"]) "h1" = some "" ∧
    ({ selector := "old", changeType := .removed, oldContent := some "stale" } : Change) ∈
      detectChanges [("old", "stale")] (extractContentFromSelectors sampleQuery ["h1", "h2"]) :=
  ⟨(snapshot_keys_are_configured_selectors sampleQuery ["h1", "h2"]
      [("old", "stale")] "old" "stale").1 (by decide),
   (snapshot_keys_are_configured_selectors sampleQuery ["h1", "h2"]
      [("old", "stale")] "h1" "stale").2.1 (by decide) (by decide) rfl,
   (snapshot_keys_are_configured_selectors sampleQuery ["h1", "h2"]
      [("old", "stale")] "old" "stale").2.2.2 (by decide) (by decide)⟩

/-- C7: a successful check replaces the snapshot with the freshly extracted
map and sets `lastChecked` to the check time; `lastChange` is set to the check
time exactly when the diff is non-empty (otherwise it keeps its prior value);
the stamped diff entries are appended to `changeHistory` (then truncated to
the 50 most recent) exactly when the diff is non-empty; and the returned
result is `{hasChanges = diff nonempty, changes = diff,
checkedAt = the new lastChecked}`. -/
theorem check_success_updates_target (job : MonitoringJob) (response : FetchResponse)
    (query : String → Except String (List String)) (now : Nat) (cur : Rec)
    (hok : response.ok = true) :
    checkForChanges job (.ok response) query now =
      .ok (checkForChangesUpdate job (extractContentFromSelectors query job.selectors) now) ∧
    (checkForChangesUpdate job cur now).1.previousContent = cur ∧
    (checkForChangesUpdate job cur now).1.lastChecked = some now ∧
    (detectChanges job.previousContent cur ≠ [] →
      (checkForChangesUpdate job cur now).1.lastChange = some now) ∧
    (detectChanges job.previousContent cur = [] →
      (checkForChangesUpdate job cur now).1.lastChange = job.lastChange ∧
      (checkForChangesUpdate job cur now).1.changeHistory = job.changeHistory) ∧
    (detectChanges job.previousContent cur ≠ [] →
      (checkForChangesUpdate job cur now).1.changeHistory =
        (if (job.changeHistory ++
              (detectChanges job.previousContent cur).map (stampChange now)).length ≤ 50
         then job.changeHistory ++
              (detectChanges job.previousContent cur).map (stampChange now)
         else sliceLast 50 (job.changeHistory ++
              (detectChanges job.previousContent cur).map (stampChange now)))) ∧
    (checkForChangesUpdate job cur now).2.hasChanges =
      decide (detectChanges job.previousContent cur ≠ []) ∧
    (checkForChangesUpdate job cur now).2.changes = detectChanges job.previousContent cur ∧
    (checkForChangesUpdate job cur now).2.checkedAt = some now := by
  refine ⟨by simp [checkForChanges, hok], ?_⟩
  by_cases hC : detectChanges job.previousContent cur = []
  · simp [checkForChangesUpdate, hC]
  · have hpos : 0 < (detectChanges job.previousContent cur).length :=
      List.length_pos.mpr hC
    by_cases h50 : job.changeHistory.length +
        (detectChanges job.previousContent cur).length ≤ 50
    · have h1 : ¬ 50 < job.changeHistory.length +
          (detectChanges job.previousContent cur).length := by omega
      simp [checkForChangesUpdate, hC, hpos, h50, h1]
    · have h1 : 50 < job.changeHistory.length +
          (detectChanges job.previousContent cur).length := by omega
      simp [checkForChangesUpdate, hC, hpos, h50, h1]

/-- Witness for C7 at a concrete target, successful response and time. -/
theorem check_success_updates_target_witness :
    checkForChanges initialTarget
        (.ok { ok := true, status := 200, statusText := "OK", body := "page" })
        sampleQuery 7 =
      .ok (checkForChangesUpdate initialTarget
        (extractContentFromSelectors sampleQuery initialTarget.selectors) 7) ∧
    (checkForChangesUpdate initialTarget [("h1", "Hi")] 7).1.lastChange = some 7 :=
  ⟨(check_success_updates_target initialTarget
      { ok := true, status := 200, statusText := "OK", body := "page" }
      sampleQuery 7 [("h1", "Hi")] rfl).1,
   (check_success_updates_target initialTarget
      { ok := true, status := 200, statusText := "OK", body := "page" }
      sampleQuery 7 [("h1", "Hi")] rfl).2.2.2.1 (by decide)⟩

set_option maxRecDepth 40000

/-- C8: the change history never exceeds 50 entries after any operation (a
check preserves the bound, creation starts empty, a configuration update
leaves the history untouched); and after the 60 sequential changes of
`sixtyInputs` the history is exactly the 50 most recent change entries in
chronological order. -/
theorem changeHistory_capped (job : MonitoringJob) (cur : Rec) (now : Nat)
    (patch : MonitoringPatch) (jobId url name userId : String) (isActive : Bool)
    (checkInterval : Nat) (selectors : List String) (notif : Notifications)
    (now2 : Nat) :
    (job.changeHistory.length ≤ 50 →
      ((checkForChangesUpdate job cur now).1).changeHistory.length ≤ 50) ∧
    (updateMonitoringJob job patch).changeHistory = job.changeHistory ∧
    (addMonitoringJob jobId url name userId isActive checkInterval selectors
      notif now2).changeHistory = [] ∧
    (runChecks initialTarget sixtyInputs).changeHistory = expectedHistory := by
  refine ⟨?_, rfl, rfl, by decide⟩
  intro hle
  by_cases hC : detectChanges job.previousContent cur = []
  · simpa [checkForChangesUpdate, hC] using hle
  · have hpos : 0 < (detectChanges job.previousContent cur).length :=
      List.length_pos.mpr hC
    by_cases h50 : 50 < job.changeHistory.length +
        (detectChanges job.previousContent cur).length
    · simp [checkForChangesUpdate, hC, hpos, h50, sliceLast]
      omega
    · simp [checkForChangesUpdate, hC, hpos, h50]
      omega

/-- Witness for C8: the cap is preserved by a concrete check on a concrete
target. -/
theorem changeHistory_capped_witness :
    initialTarget.changeHistory.length ≤ 50 ∧
    ((checkForChangesUpdate initialTarget [("h1", "x")] 1).1).changeHistory.length ≤ 50 :=
  ⟨by decide,
   (changeHistory_capped initialTarget [("h1", "x")] 1 {} "m2" "u" "n" "u2" true 60 ["h1"]
      { enabled := false } 0).1 (by decide)⟩

/-! ## Scheduling-pass lemmas -/

lemma startFirstPending_some_decomp (now : Nat) (l l' : List ScrapingJob)
    (h : startFirstPending now l = some l') :
    ∃ l₁ j l₂, l = l₁ ++ j :: l₂ ∧ l' = l₁ ++ markRunning j now :: l₂ ∧
      j.status = .pending ∧ ∀ a ∈ l₁, a.status ≠ .pending := by
  induction l generalizing l' with
  | nil => simp [startFirstPending] at h
  | cons j rest ih =>
    by_cases hp : j.status = .pending
    · simp only [startFirstPending, hp, beq_self_eq_true, if_true,
        Option.some.injEq] at h
      exact ⟨[], j, rest, rfl, by simp [h.symm], hp, by simp⟩
    · have hb : (j.status == JobStatus.pending) = false := by
        simpa using hp
      simp only [startFirstPending, hb, Bool.false_eq_true, if_false,
        Option.map_eq_some'] at h
      obtain ⟨a, ha, rfl⟩ := h
      obtain ⟨l₁, p, l₂, rfl, rfl, hps, hnp⟩ := ih a ha
      refine ⟨j :: l₁, p, l₂, rfl, rfl, hps, ?_⟩
      intro x hx
      rcases List.mem_cons.mp hx with rfl | hx
      · exact hp
      · exact hnp x hx

lemma startFirstPending_eq_of_decomp (now : Nat) (l₁ l₂ : List ScrapingJob)
    (j : ScrapingJob) (hnp : ∀ a ∈ l₁, a.status ≠ .pending)
    (hp : j.status = .pending) :
    startFirstPending now (l₁ ++ j :: l₂) = some (l₁ ++ markRunning j now :: l₂) := by
  induction l₁ with
  | nil => simp [startFirstPending, hp]
  | cons a rest ih =>
    have ha : (a.status == JobStatus.pending) = false := by
      simpa using hnp a (List.mem_cons_self a rest)
    simp [startFirstPending, ha,
      ih (fun x hx => hnp x (List.mem_cons_of_mem a hx))]

lemma passRel_refl (now : Nat) : ∀ l : List ScrapingJob, PassRel now l l
  | [] => .nil
  | j :: rest => .same j (passRel_refl now rest)

lemma passRel_of_start (now : Nat) (l l' : List ScrapingJob)
    (h : startFirstPending now l = some l') : PassRel now l l' := by
  obtain ⟨l₁, j, l₂, rfl, rfl, hp, -⟩ := startFirstPending_some_decomp now l l' h
  clear h
  induction l₁ with
  | nil => exact .mark j hp (passRel_refl now l₂)
  | cons a rest ih => exact .same a ih

lemma passRel_trans (now : Nat) {l₁ l₂ l₃ : List ScrapingJob}
    (h12 : PassRel now l₁ l₂) (h23 : PassRel now l₂ l₃) : PassRel now l₁ l₃ := by
  induction h12 generalizing l₃ with
  | nil => exact h23
  | same a h ih =>
    cases h23 with
    | same _ h' => exact .same a (ih h')
    | mark _ hp h' => exact .mark a hp (ih h')
  | mark a hp h ih =>
    cases h23 with
    | same _ h' => exact .mark a hp (ih h')
    | mark _ hp' h' => simp [markRunning] at hp'

lemma passRel_loop (now fuel : Nat) (s : JobQueueState) :
    PassRel now s.jobs (processJobsLoop fuel s now).jobs := by
  induction fuel generalizing s with
  | zero => exact passRel_refl _ _
  | succ n ih =>
    unfold processJobsLoop
    by_cases hg : s.activeJobs < maxConcurrentJobs
    · simp only [hg, if_true]
      cases hsf : startFirstPending now s.jobs with
      | none => exact passRel_refl _ _
      | some jobs' =>
        exact passRel_trans now (passRel_of_start now _ _ hsf)
          (ih { s with jobs := jobs', activeJobs := s.activeJobs + 1 })
    · simp only [hg, if_false]
      exact passRel_refl _ _

lemma passRel_find? (now : Nat) {l l' : List ScrapingJob}
    (h : PassRel now l l') (k : String) (j : ScrapingJob)
    (hf : l.find? (fun x => x.id == k) = some j) :
    ∃ j', l'.find? (fun x => x.id == k) = some j' ∧
      (j' = j ∨ (j.status = .pending ∧ j' = markRunning j now)) := by
  induction h with
  | nil => simp at hf
  | same a h ih =>
    by_cases hk : (a.id == k) = true
    · simp only [List.find?_cons, hk] at hf
      refine ⟨a, ?_, Or.inl (Option.some.inj hf)⟩
      simp only [List.find?_cons, hk]
    · simp only [List.find?_cons, hk] at hf
      obtain ⟨j', hj', hc⟩ := ih hf
      refine ⟨j', ?_, hc⟩
      simp only [List.find?_cons, hk]
      exact hj'
  | mark a hp h ih =>
    by_cases hk : (a.id == k) = true
    · simp only [List.find?_cons, hk] at hf
      have hj : j = a := (Option.some.inj hf).symm
      have hk' : ((markRunning a now).id == k) = true := by
        simpa [markRunning] using hk
      refine ⟨markRunning a now, ?_, Or.inr ⟨hj ▸ hp, by rw [hj]⟩⟩
      simp only [List.find?_cons, hk']
    · simp only [List.find?_cons, hk] at hf
      obtain ⟨j', hj', hc⟩ := ih hf
      have hk' : ((markRunning a now).id == k) = false := by
        simpa [markRunning] using hk
      refine ⟨j', ?_, hc⟩
      simp only [List.find?_cons, hk']
      exact hj'

lemma passRel_getElem?_nonpending (now : Nat) {l l' : List ScrapingJob}
    (h : PassRel now l l') :
    ∀ (i : Nat) (a : ScrapingJob),
      l[i]? = some a → a.status ≠ .pending → l'[i]? = some a := by
  induction h with
  | nil => intro i a h1 _; simp at h1
  | same b h ih =>
    intro i a h1 hnp
    cases i with
    | zero => simpa using h1
    | succ n =>
      rw [List.getElem?_cons_succ] at h1 ⊢
      exact ih n a h1 hnp
  | mark b hp h ih =>
    intro i a h1 hnp
    cases i with
    | zero =>
      have hba : b = a := by simpa using h1
      exact absurd (hba ▸ hp) hnp
    | succ n =>
      rw [List.getElem?_cons_succ] at h1 ⊢
      exact ih n a h1 hnp

lemma find?_append_some {α : Type} {p : α → Bool} {l₁ l₂ : List α} {j : α}
    (h : l₁.find? p = some j) : (l₁ ++ l₂).find? p = some j := by
  induction l₁ with
  | nil => simp at h
  | cons a rest ih =>
    by_cases ha : p a = true
    · simp only [List.find?_cons, ha] at h
      simp only [List.cons_append, List.find?_cons, ha]
      exact h
    · simp only [List.find?_cons, ha] at h
      simp only [List.cons_append, List.find?_cons, ha]
      exact ih h

/-! ## Invariant preservation -/

lemma runningCountL_start (now : Nat) {l l' : List ScrapingJob}
    (h : startFirstPending now l = some l') :
    runningCountL l' = runningCountL l + 1 := by
  obtain ⟨l₁, j, l₂, rfl, rfl, hp, -⟩ := startFirstPending_some_decomp now l l' h
  have hj : (j.status == JobStatus.running) = false := by simp [hp]
  have hm : ((markRunning j now).status == JobStatus.running) = true := by
    simp [markRunning]
  simp only [runningCountL, List.filter_append, List.filter_cons, hj, hm,
    Bool.false_eq_true, if_false, if_true, List.length_append, List.length_cons]
  omega

lemma ids_start (now : Nat) {l l' : List ScrapingJob}
    (h : startFirstPending now l = some l') :
    l'.map (fun j => j.id) = l.map (fun j => j.id) := by
  obtain ⟨l₁, j, l₂, rfl, rfl, -, -⟩ := startFirstPending_some_decomp now l l' h
  simp [markRunning]

lemma pairwise_start (now : Nat) {l l' : List ScrapingJob}
    (h : startFirstPending now l = some l') (hP : l.Pairwise FifoRel) :
    l'.Pairwise FifoRel := by
  obtain ⟨l₁, j, l₂, rfl, rfl, hp, hnp⟩ := startFirstPending_some_decomp now l l' h
  rw [List.pairwise_append] at hP ⊢
  obtain ⟨h₁, h₂, h₁₂⟩ := hP
  rw [List.pairwise_cons] at h₂ ⊢
  refine ⟨h₁, ⟨?_, h₂.2⟩, ?_⟩
  · intro b _ hpend
    simp [markRunning] at hpend
  · intro a ha b hb
    rcases List.mem_cons.mp hb with rfl | hb
    · exact fun hpa => absurd hpa (hnp a ha)
    · exact h₁₂ a ha b (List.mem_cons_of_mem _ hb)

lemma processJobsLoop_inv (now fuel : Nat) :
    ∀ s : JobQueueState,
    runningCountL s.jobs ≤ s.activeJobs →
    s.activeJobs ≤ maxConcurrentJobs →
    (s.jobs.map (fun j => j.id)).Nodup →
    s.jobs.Pairwise FifoRel →
    (processJobsLoop fuel s now).isProcessing = s.isProcessing ∧
    runningCountL (processJobsLoop fuel s now).jobs ≤
      (processJobsLoop fuel s now).activeJobs ∧
    (processJobsLoop fuel s now).activeJobs ≤ maxConcurrentJobs ∧
    ((processJobsLoop fuel s now).jobs.map (fun j => j.id)).Nodup ∧
    (processJobsLoop fuel s now).jobs.Pairwise FifoRel := by
  induction fuel with
  | zero => exact fun s h1 h2 h3 h4 => ⟨rfl, h1, h2, h3, h4⟩
  | succ n ih =>
    intro s h1 h2 h3 h4
    unfold processJobsLoop
    by_cases hg : s.activeJobs < maxConcurrentJobs
    · simp only [hg, if_true]
      cases hsf : startFirstPending now s.jobs with
      | none => exact ⟨rfl, h1, h2, h3, h4⟩
      | some jobs' =>
        have hrc := runningCountL_start now hsf
        have hids := ids_start now hsf
        have hpw := pairwise_start now hsf h4
        exact ih { s with jobs := jobs', activeJobs := s.activeJobs + 1 }
          (by simp only []; rw [hrc]; omega) (by simp only []; omega)
          (by simpa [hids]) hpw
    · simp only [hg, if_false]
      exact ⟨trivial, h1, h2, h3, h4⟩

lemma processJobs_inv {s : JobQueueState} (h : QueueInv s) (now : Nat) :
    QueueInv (processJobs s now) := by
  unfold processJobs
  rw [h.notProcessing]
  simp only [Bool.false_eq_true, if_false]
  obtain ⟨hip, h1, h2, h3, h4⟩ :=
    processJobsLoop_inv now (maxConcurrentJobs - s.activeJobs)
      { s with isProcessing := true } h.runningLe h.activeLe h.nodupIds h.fifo
  refine ⟨?_, h1, h2, h3, h4⟩
  rfl

lemma updateJobList_decomp (k : String) (f : ScrapingJob → ScrapingJob)
    (l : List ScrapingJob) (j : ScrapingJob)
    (h : l.find? (fun x => x.id == k) = some j) :
    ∃ l₁ l₂, l = l₁ ++ j :: l₂ ∧ (∀ a ∈ l₁, (a.id == k) = false) ∧
      (j.id == k) = true ∧ updateJobList k f l = l₁ ++ f j :: l₂ := by
  induction l with
  | nil => simp at h
  | cons a rest ih =>
    by_cases ha : (a.id == k) = true
    · simp only [List.find?_cons, ha] at h
      have haj : a = j := Option.some.inj h
      subst haj
      exact ⟨[], rest, rfl, by simp, ha, by simp [updateJobList, ha]⟩
    · have hb : (a.id == k) = false := by simpa using ha
      simp only [List.find?_cons, hb] at h
      obtain ⟨l₁, l₂, rfl, hl₁, hjk, hupd⟩ := ih h
      refine ⟨a :: l₁, l₂, rfl, ?_, hjk, by simp [updateJobList, hb, hupd]⟩
      intro x hx
      rcases List.mem_cons.mp hx with rfl | hx
      · exact hb
      · exact hl₁ x hx

lemma runningCountL_middle (l₁ l₂ : List ScrapingJob) (x : ScrapingJob) :
    runningCountL (l₁ ++ x :: l₂) =
      runningCountL l₁ + (if x.status == .running then 1 else 0) + runningCountL l₂ := by
  simp only [runningCountL, List.filter_append, List.filter_cons, List.length_append]
  by_cases hx : (x.status == JobStatus.running) = true
  · simp [hx]; omega
  · have : (x.status == JobStatus.running) = false := by simpa using hx
    simp [this]

lemma pairwise_middle_transfer {l₁ l₂ : List ScrapingJob} {j j' : ScrapingJob}
    (h : (l₁ ++ j :: l₂).Pairwise FifoRel)
    (h₁ : ∀ a ∈ l₁, FifoRel a j → FifoRel a j')
    (h₂ : ∀ b ∈ l₂, FifoRel j b → FifoRel j' b) :
    (l₁ ++ j' :: l₂).Pairwise FifoRel := by
  rw [List.pairwise_append] at h ⊢
  obtain ⟨ha, hb, hab⟩ := h
  rw [List.pairwise_cons] at hb ⊢
  refine ⟨ha, ⟨fun b hbm => h₂ b hbm (hb.1 b hbm), hb.2⟩, ?_⟩
  intro a ham b hbm
  rcases List.mem_cons.mp hbm with rfl | hbm
  · exact h₁ a ham (hab a ham j (List.mem_cons_self _ _))
  · exact hab a ham b (List.mem_cons_of_mem _ hbm)

lemma queueInv_sublist {s : JobQueueState} (h : QueueInv s)
    (l' : List ScrapingJob) (hsub : l'.Sublist s.jobs) :
    QueueInv { s with jobs := l' } := by
  refine ⟨h.notProcessing, ?_, h.activeLe, ?_, ?_⟩
  · exact le_trans (List.Sublist.length_le (hsub.filter _)) h.runningLe
  · exact List.Nodup.sublist (hsub.map _) h.nodupIds
  · exact List.Pairwise.sublist hsub h.fifo

lemma step_inv {s s' : JobQueueState} (h : QueueInv s) (hs : Step s s') :
    QueueInv s' := by
  cases hs with
  | submit jobId url options userId now hfresh =>
    apply processJobs_inv _ now
    have hfresh' : ∀ x ∈ s.jobs, ¬ (x.id == jobId) = true :=
      List.find?_eq_none.mp hfresh
    refine ⟨h.notProcessing, ?_, h.activeLe, ?_, ?_⟩
    · have : runningCountL (s.jobs ++
          [{ id := jobId, url := url, options := options, status := .pending,
             progress := 0, createdAt := now, userId := userId }]) =
          runningCountL s.jobs := by
        simp [runningCountL, List.filter_append]
      simpa [this] using h.runningLe
    · simp only [List.map_append, List.map_cons, List.map_nil]
      rw [List.nodup_append]
      refine ⟨h.nodupIds, List.nodup_singleton _, ?_⟩
      intro x hx
      simp only [List.mem_singleton]
      intro hxj
      obtain ⟨a, ham, rfl⟩ := List.mem_map.mp hx
      exact hfresh' a ham (by simp [hxj])
    · rw [List.pairwise_append]
      refine ⟨h.fifo, List.pairwise_singleton _ _, ?_⟩
      intro a _ b hb
      simp only [List.mem_singleton] at hb
      subst hb
      exact fun _ => rfl
  | finish jobId outcome now j hj hrun =>
    obtain ⟨l₁, l₂, hdec, hl₁, hjk, hupd⟩ :=
      updateJobList_decomp jobId (finishedJob outcome now) s.jobs j hj
    have hfpend : (finishedJob outcome now j).status ≠ .pending := by
      cases outcome <;> exact fun hc => by cases hc
    have hfrun : ((finishedJob outcome now j).status == JobStatus.running) = false := by
      cases outcome <;> rfl
    have hfid : (finishedJob outcome now j).id = j.id := by
      cases outcome <;> rfl
    refine ⟨h.notProcessing, ?_, ?_, ?_, ?_⟩
    · have hold : runningCountL s.jobs =
          runningCountL l₁ + 1 + runningCountL l₂ := by
        rw [hdec, runningCountL_middle]
        simp [hrun]
      have hnew : runningCountL (finishJob s jobId outcome now).jobs =
          runningCountL l₁ + runningCountL l₂ := by
        show runningCountL (updateJobList jobId _ s.jobs) = _
        rw [hupd, runningCountL_middle]
        simp [hfrun]
      have hact : (finishJob s jobId outcome now).activeJobs = s.activeJobs - 1 := rfl
      rw [hnew, hact]
      have := h.runningLe
      rw [hold] at this
      omega
    · exact le_trans (Nat.sub_le _ _) h.activeLe
    · show ((updateJobList jobId _ s.jobs).map (fun x => x.id)).Nodup
      rw [hupd]
      have : ((l₁ ++ finishedJob outcome now j :: l₂).map (fun x => x.id)) =
          ((l₁ ++ j :: l₂).map (fun x => x.id)) := by
        simp [hfid]
      rw [this, ← hdec]
      exact h.nodupIds
    · show (updateJobList jobId _ s.jobs).Pairwise FifoRel
      rw [hupd]
      refine pairwise_middle_transfer (hdec ▸ h.fifo) ?_ ?_
      · intro a _ haj hpa
        have := haj hpa
        rw [hrun] at this
        cases this
      · intro b _ _ hpf
        exact absurd hpf hfpend
  | progressTick jobId p j hj hrun hp =>
    obtain ⟨l₁, l₂, hdec, hl₁, hjk, hupd⟩ :=
      updateJobList_decomp jobId (fun j => { j with progress := p }) s.jobs j hj
    refine ⟨h.notProcessing, ?_, h.activeLe, ?_, ?_⟩
    · have hnew : runningCountL (setProgress s jobId p).jobs =
          runningCountL s.jobs := by
        show runningCountL (updateJobList jobId _ s.jobs) = _
        rw [hupd, hdec, runningCountL_middle, runningCountL_middle]
      rw [hnew]
      exact h.runningLe
    · show ((updateJobList jobId _ s.jobs).map (fun x => x.id)).Nodup
      rw [hupd]
      have : ((l₁ ++ ({ j with progress := p } : ScrapingJob) :: l₂).map
          (fun x => x.id)) = ((l₁ ++ j :: l₂).map (fun x => x.id)) := by simp
      rw [this, ← hdec]
      exact h.nodupIds
    · show (updateJobList jobId _ s.jobs).Pairwise FifoRel
      rw [hupd]
      have hpw : (l₁ ++ j :: l₂).Pairwise FifoRel := by
        rw [← hdec]; exact h.fifo
      exact pairwise_middle_transfer hpw (fun a _ haj => haj)
        (fun b _ hjb => hjb)
  | schedule now => exact processJobs_inv h now
  | httpDelete jobId =>
    unfold deleteRoute
    by_cases h0 : (jobId == "") = true
    · simpa [h0] using h
    · have h0' : (jobId == "") = false := by simpa using h0
      simp only [h0', Bool.false_eq_true, if_false]
      cases hget : getJob s jobId with
      | none => exact h
      | some job =>
        by_cases hst : (job.status == JobStatus.running ||
            job.status == JobStatus.pending) = true
        · simpa [hst] using h
        · have hst' : (job.status == JobStatus.running ||
              job.status == JobStatus.pending) = false := by simpa using hst
          simp only [hst', Bool.false_eq_true, if_false]
          exact queueInv_sublist h _ (List.eraseP_sublist _)
  | sweep now =>
    exact queueInv_sublist h _ (List.filter_sublist _)

lemma reachable_inv {s : JobQueueState} (h : Reachable s) : QueueInv s := by
  induction h with
  | init =>
    refine ⟨rfl, ?_, ?_, ?_, ?_⟩ <;>
      simp [initState, runningCountL, maxConcurrentJobs]
  | step _ hs ih => exact step_inv ih hs

/-! ## Per-job evolution lemmas -/

lemma getJob_processJobs (s : JobQueueState) (now : Nat) (k : String)
    (j : ScrapingJob) (hf : getJob s k = some j) :
    ∃ j', getJob (processJobs s now) k = some j' ∧
      (j' = j ∨ (j.status = .pending ∧ j' = markRunning j now)) := by
  unfold processJobs
  by_cases hip : s.isProcessing = true
  · simp only [hip, if_true]
    exact ⟨j, hf, Or.inl rfl⟩
  · have hip' : s.isProcessing = false := by simpa using hip
    simp only [hip', Bool.false_eq_true, if_false]
    have hrel := passRel_loop now (maxConcurrentJobs - s.activeJobs)
      { s with isProcessing := true }
    exact passRel_find? now hrel k j hf

lemma find?_append_no_match {p : ScrapingJob → Bool} {l₁ : List ScrapingJob}
    (l₂ : List ScrapingJob) (x : ScrapingJob)
    (h₁ : ∀ a ∈ l₁, p a = false) (hx : p x = true) :
    (l₁ ++ x :: l₂).find? p = some x := by
  induction l₁ with
  | nil => simp only [List.nil_append, List.find?_cons, hx]
  | cons a rest ih =>
    have ha : p a = false := h₁ a (List.mem_cons_self a rest)
    simp only [List.cons_append, List.find?_cons, ha]
    exact ih (fun y hy => h₁ y (List.mem_cons_of_mem a hy))

lemma getJob_updateJobList_self (k : String) (f : ScrapingJob → ScrapingJob)
    (l : List ScrapingJob) (j : ScrapingJob) (hid : ∀ x, (f x).id = x.id)
    (hf : l.find? (fun x => x.id == k) = some j) :
    (updateJobList k f l).find? (fun x => x.id == k) = some (f j) := by
  obtain ⟨l₁, l₂, rfl, hl₁, hjk, hupd⟩ := updateJobList_decomp k f _ j hf
  rw [hupd]
  exact find?_append_no_match l₂ (f j) hl₁ (by rw [hid j]; exact hjk)

lemma getJob_updateJobList_ne (k k' : String) (f : ScrapingJob → ScrapingJob)
    (l : List ScrapingJob) (hne : k' ≠ k) (hid : ∀ x, (f x).id = x.id) :
    (updateJobList k f l).find? (fun x => x.id == k') =
      l.find? (fun x => x.id == k') := by
  induction l with
  | nil => rfl
  | cons a rest ih =>
    by_cases ha : (a.id == k) = true
    · have ha' : a.id = k := by simpa using ha
      have hfa : ((f a).id == k') = false := by
        rw [hid a, ha']
        simpa using Ne.symm hne
      have haa : (a.id == k') = false := by
        rw [ha']
        simpa using Ne.symm hne
      simp only [updateJobList, ha, if_true, List.find?_cons, hfa, haa]
    · have ha' : (a.id == k) = false := by simpa using ha
      simp only [updateJobList, ha', Bool.false_eq_true, if_false, List.find?_cons]
      by_cases hak : (a.id == k') = true
      · simp only [hak]
      · have : (a.id == k') = false := by simpa using hak
        simp only [this]
        exact ih

lemma find?_id_none_of_notMem {l : List ScrapingJob} {k : String}
    (h : k ∉ l.map (fun x => x.id)) :
    l.find? (fun x => x.id == k) = none := by
  apply List.find?_eq_none.mpr
  intro x hx hbeq
  exact h (List.mem_map.mpr ⟨x, hx, by simpa using hbeq⟩)

lemma find?_eraseP_ne (k k' : String) (l : List ScrapingJob) (hne : k' ≠ k) :
    (l.eraseP (fun x => x.id == k)).find? (fun x => x.id == k') =
      l.find? (fun x => x.id == k') := by
  induction l with
  | nil => rfl
  | cons a rest ih =>
    by_cases ha : (a.id == k) = true
    · have ha' : a.id = k := by simpa using ha
      have haa : (a.id == k') = false := by
        rw [ha']
        simpa using Ne.symm hne
      rw [List.eraseP_cons_of_pos (p := fun x : ScrapingJob => x.id == k) ha]
      simp only [List.find?_cons, haa]
    · have ha' : (a.id == k) = false := by simpa using ha
      rw [List.eraseP_cons_of_neg (p := fun x : ScrapingJob => x.id == k) (by simpa using ha)]
      simp only [List.find?_cons]
      by_cases hak : (a.id == k') = true
      · simp only [hak]
      · have : (a.id == k') = false := by simpa using hak
        simp only [this]
        exact ih

lemma find?_eraseP_self_none (k : String) (l : List ScrapingJob)
    (hnd : (l.map (fun x => x.id)).Nodup) :
    (l.eraseP (fun x => x.id == k)).find? (fun x => x.id == k) = none := by
  induction l with
  | nil => rfl
  | cons a rest ih =>
    rw [List.map_cons, List.nodup_cons] at hnd
    by_cases ha : (a.id == k) = true
    · rw [List.eraseP_cons_of_pos (p := fun x : ScrapingJob => x.id == k) ha]
      apply find?_id_none_of_notMem
      have ha' : a.id = k := by simpa using ha
      rw [← ha']
      exact hnd.1
    · rw [List.eraseP_cons_of_neg (p := fun x : ScrapingJob => x.id == k) (by simpa using ha)]
      have ha' : (a.id == k) = false := by simpa using ha
      simp only [List.find?_cons, ha']
      exact ih hnd.2

lemma find?_filter_of_nodup {l : List ScrapingJob} {k : String} {j : ScrapingJob}
    (p : ScrapingJob → Bool) (hnd : (l.map (fun x => x.id)).Nodup)
    (hf : l.find? (fun x => x.id == k) = some j) :
    (l.filter p).find? (fun x => x.id == k) =
      if p j then some j else none := by
  induction l with
  | nil => simp at hf
  | cons a rest ih =>
    rw [List.map_cons, List.nodup_cons] at hnd
    by_cases ha : (a.id == k) = true
    · simp only [List.find?_cons, ha] at hf
      have haj : a = j := Option.some.inj hf
      subst haj
      rw [List.filter_cons]
      by_cases hpa : p a = true
      · simp only [hpa, if_true, List.find?_cons, ha]
      · have hpa' : p a = false := by simpa using hpa
        simp only [hpa', Bool.false_eq_true, if_false]
        apply find?_id_none_of_notMem
        intro hk
        obtain ⟨x, hx, hxa⟩ := List.mem_map.mp hk
        have hxr : x ∈ rest := List.mem_of_mem_filter hx
        have ha' : a.id = k := by simpa using ha
        exact hnd.1 (by rw [← ha'] at hxa; exact hxa ▸ List.mem_map.mpr ⟨x, hxr, rfl⟩)
    · have ha' : (a.id == k) = false := by simpa using ha
      simp only [List.find?_cons, ha'] at hf
      rw [List.filter_cons]
      by_cases hpa : p a = true
      · simp only [hpa, if_true, List.find?_cons, ha']
        exact ih hnd.2 hf
      · have hpa' : p a = false := by simpa using hpa
        simp only [hpa', Bool.false_eq_true, if_false]
        exact ih hnd.2 hf

/-! ## Claim theorems: job queue -/

/-- C2: in every reachable state of the job queue — hence at every instant of
every sequence of submissions, worker completions, scheduling passes, deletes
and sweeps — the number of jobs whose status is `running` never exceeds
`maxConcurrentJobs` (3). -/
theorem running_jobs_never_exceed_cap (s : JobQueueState) (h : Reachable s) :
    runningCount s ≤ maxConcurrentJobs := by
  have hi := reachable_inv h
  exact le_trans hi.runningLe hi.activeLe

lemma reachable_fifoScenario : Reachable fifoScenario := by
  have h1 : Reachable (addJob initState "job_1" "u" "o" none 1) :=
    Reachable.step Reachable.init (Step.submit initState "job_1" "u" "o" none 1 rfl)
  have h2 : Reachable (addJob (addJob initState "job_1" "u" "o" none 1)
      "job_2" "u" "o" none 2) :=
    Reachable.step h1 (Step.submit _ "job_2" "u" "o" none 2 (by decide))
  have h3 : Reachable (addJob (addJob (addJob initState "job_1" "u" "o" none 1)
      "job_2" "u" "o" none 2) "job_3" "u" "o" none 3) :=
    Reachable.step h2 (Step.submit _ "job_3" "u" "o" none 3 (by decide))
  have h4 : Reachable (addJob (addJob (addJob (addJob initState
      "job_1" "u" "o" none 1) "job_2" "u" "o" none 2) "job_3" "u" "o" none 3)
      "job_4" "u" "o" none 4) :=
    Reachable.step h3 (Step.submit _ "job_4" "u" "o" none 4 (by decide))
  exact Reachable.step h4 (Step.finish _ "job_1" (.success "r") 5
    { id := "job_1", url := "u", options := "o", status := .running,
      progress := 10, createdAt := 1, startedAt := some 1 }
    (by decide) rfl)

/-- Witness for C2: the cap holds at a concrete reachable state with one
finished, two running and one pending job. -/
theorem running_jobs_never_exceed_cap_witness :
    runningCount fifoScenario ≤ maxConcurrentJobs :=
  running_jobs_never_exceed_cap fifoScenario reachable_fifoScenario

/-- C3: across any single step taken from a reachable state, a job present
before and after either keeps its status or moves `pending -> running` or
`running -> completed/failed`; in particular once a job is terminal
(`completed` or `failed`) no operation ever changes its status again. -/
theorem job_status_transitions (s s' : JobQueueState) (hr : Reachable s)
    (hstep : Step s s') (jobId : String) (j j' : ScrapingJob)
    (hjs : getJob s jobId = some j) (hjs' : getJob s' jobId = some j') :
    (j'.status = j.status ∨
      (j.status = .pending ∧ j'.status = .running) ∨
      (j.status = .running ∧ (j'.status = .completed ∨ j'.status = .failed))) ∧
    ((j.status = .completed ∨ j.status = .failed) → j'.status = j.status) := by
  have main : j'.status = j.status ∨
      (j.status = .pending ∧ j'.status = .running) ∨
      (j.status = .running ∧ (j'.status = .completed ∨ j'.status = .failed)) := by
    cases hstep with
    | submit jobId0 url options userId now hfresh =>
      have hfApp : getJob { s with jobs := s.jobs ++
          [{ id := jobId0, url := url, options := options, status := .pending,
             progress := 0, createdAt := now, userId := userId }] } jobId =
          some j := find?_append_some hjs
      obtain ⟨j'', hj'', hc⟩ := getJob_processJobs _ now jobId j hfApp
      have hj'j : j' = j'' := by
        have h2 : getJob (addJob s jobId0 url options userId now) jobId =
            some j'' := hj''
        rw [hjs'] at h2
        exact Option.some.inj h2
      subst hj'j
      rcases hc with rfl | ⟨hp, rfl⟩
      · exact Or.inl rfl
      · exact Or.inr (Or.inl ⟨hp, rfl⟩)
    | schedule now =>
      obtain ⟨j'', hj'', hc⟩ := getJob_processJobs s now jobId j hjs
      have hj'j : j' = j'' := by
        rw [hjs'] at hj''
        exact Option.some.inj hj''
      subst hj'j
      rcases hc with rfl | ⟨hp, rfl⟩
      · exact Or.inl rfl
      · exact Or.inr (Or.inl ⟨hp, rfl⟩)
    | finish jobId0 outcome now j0 hj0 hrun0 =>
      have hid : ∀ x, (finishedJob outcome now x).id = x.id := fun x => by
        cases outcome <;> rfl
      by_cases hk : jobId = jobId0
      · subst hk
        have hjj : j0 = j := by
          rw [hjs] at hj0
          exact (Option.some.inj hj0).symm
        subst hjj
        have hupd := getJob_updateJobList_self jobId (finishedJob outcome now)
          s.jobs j0 hid hjs
        have hj' : j' = finishedJob outcome now j0 := by
          have : getJob (finishJob s jobId outcome now) jobId =
              some (finishedJob outcome now j0) := hupd
          rw [hjs'] at this
          exact Option.some.inj this
        subst hj'
        refine Or.inr (Or.inr ⟨hrun0, ?_⟩)
        cases outcome with
        | success r => exact Or.inl rfl
        | failure e => exact Or.inr rfl
      · have hne := getJob_updateJobList_ne jobId0 jobId (finishedJob outcome now)
          s.jobs hk hid
        have : getJob (finishJob s jobId0 outcome now) jobId = getJob s jobId := hne
        rw [hjs, hjs'] at this
        rw [Option.some.inj this]
        exact Or.inl rfl
    | progressTick jobId0 p j0 hj0 hrun0 hp =>
      have hid : ∀ x : ScrapingJob,
          (({ x with progress := p } : ScrapingJob)).id = x.id := fun x => rfl
      by_cases hk : jobId = jobId0
      · subst hk
        have hjj : j0 = j := by
          rw [hjs] at hj0
          exact (Option.some.inj hj0).symm
        subst hjj
        have hupd := getJob_updateJobList_self jobId
          (fun x => { x with progress := p }) s.jobs j0 hid hjs
        have hj' : j' = { j0 with progress := p } := by
          have : getJob (setProgress s jobId p) jobId =
              some ({ j0 with progress := p } : ScrapingJob) := hupd
          rw [hjs'] at this
          exact Option.some.inj this
        subst hj'
        exact Or.inl rfl
      · have hne := getJob_updateJobList_ne jobId0 jobId
          (fun x => { x with progress := p }) s.jobs hk hid
        have : getJob (setProgress s jobId0 p) jobId = getJob s jobId := hne
        rw [hjs, hjs'] at this
        rw [Option.some.inj this]
        exact Or.inl rfl
    | httpDelete jobId0 =>
      have heq : ∀ t : JobQueueState, (deleteRoute s jobId0).2 = t →
          getJob t jobId = some j' → j'.status = j.status ∨
            (j.status = .pending ∧ j'.status = .running) ∨
            (j.status = .running ∧ (j'.status = .completed ∨ j'.status = .failed)) := by
        intro t ht hj'
        unfold deleteRoute at ht
        by_cases h0 : (jobId0 == "") = true
        · simp only [h0, if_true] at ht
          rw [← ht] at hj'
          rw [hjs] at hj'
          rw [Option.some.inj hj']
          exact Or.inl rfl
        · have h0' : (jobId0 == "") = false := by simpa using h0
          simp only [h0', Bool.false_eq_true, if_false] at ht
          cases hget : getJob s jobId0 with
          | none =>
            rw [hget] at ht
            rw [← ht] at hj'
            rw [hjs] at hj'
            rw [Option.some.inj hj']
            exact Or.inl rfl
          | some job0 =>
            rw [hget] at ht
            by_cases hst : (job0.status == JobStatus.running ||
                job0.status == JobStatus.pending) = true
            · simp only [hst, if_true] at ht
              rw [← ht] at hj'
              rw [hjs] at hj'
              rw [Option.some.inj hj']
              exact Or.inl rfl
            · have hst' : (job0.status == JobStatus.running ||
                  job0.status == JobStatus.pending) = false := by simpa using hst
              simp only [hst', Bool.false_eq_true, if_false] at ht
              rw [← ht] at hj'
              by_cases hk : jobId = jobId0
              · subst hk
                have hnone := find?_eraseP_self_none jobId s.jobs
                  (reachable_inv hr).nodupIds
                have : getJob (deleteJob s jobId) jobId = none := hnone
                rw [hj'] at this
                cases this
              · have := find?_eraseP_ne jobId0 jobId s.jobs hk
                have hsame : getJob (deleteJob s jobId0) jobId = getJob s jobId := this
                rw [hj', hjs] at hsame
                rw [Option.some.inj hsame]
                exact Or.inl rfl
      exact heq _ rfl hjs'
    | sweep now =>
      have h2 : List.find? (fun x => x.id == jobId)
          (List.filter (fun job => !sweepRemoves now job) s.jobs) = some j' := hjs'
      rw [find?_filter_of_nodup (fun job => !sweepRemoves now job)
        (reachable_inv hr).nodupIds hjs] at h2
      by_cases hkeep : (!sweepRemoves now j) = true
      · rw [if_pos (by simpa using hkeep)] at h2
        obtain rfl := Option.some.inj h2
        exact Or.inl rfl
      · rw [if_neg (by simpa using hkeep)] at h2
        cases h2
  refine ⟨main, ?_⟩
  intro hterm
  rcases main with h | ⟨hp, _⟩ | ⟨hp, _⟩
  · exact h
  · rcases hterm with ht | ht <;> rw [ht] at hp <;> cases hp
  · rcases hterm with ht | ht <;> rw [ht] at hp <;> cases hp

/-- Witness for C3: from the reachable scenario state, a scheduling pass moves
the pending `job_4` to `running`, matching the allowed transition shapes. -/
theorem job_status_transitions_witness :
    ((markRunning job4Pending 6).status = job4Pending.status ∨
      (job4Pending.status = .pending ∧ (markRunning job4Pending 6).status = .running) ∨
      (job4Pending.status = .running ∧
        ((markRunning job4Pending 6).status = .completed ∨
         (markRunning job4Pending 6).status = .failed))) ∧
    ((job4Pending.status = .completed ∨ job4Pending.status = .failed) →
      (markRunning job4Pending 6).status = job4Pending.status) :=
  job_status_transitions fifoScenario (processJobs fifoScenario 6)
    reachable_fifoScenario (Step.schedule fifoScenario 6) "job_4"
    job4Pending (markRunning job4Pending 6) (by decide) (by decide)

lemma getElem?_append_middle (l₁ l₂ : List ScrapingJob) (x : ScrapingJob) :
    (l₁ ++ x :: l₂)[l₁.length]? = some x := by
  induction l₁ with
  | nil => simp
  | cons a rest ih => simpa using ih

/-- C5: in every reachable state the pending jobs form a suffix of the
submission order (if an earlier-submitted job is still pending, every
later-submitted job is still pending — i.e. jobs enter `running` in FIFO
submission order); and whenever the pool has capacity, a scheduling pass
starts exactly the oldest pending job (the first pending entry of the map in
insertion order), marking it running in place. -/
theorem scheduling_fifo (s : JobQueueState) (hr : Reachable s) :
    (∀ (i k : Nat) (a b : ScrapingJob), i < k → s.jobs[i]? = some a →
      s.jobs[k]? = some b → a.status = .pending → b.status = .pending) ∧
    (∀ (now : Nat) (j : ScrapingJob) (l₁ l₂ : List ScrapingJob),
      s.activeJobs < maxConcurrentJobs → s.jobs = l₁ ++ j :: l₂ →
      j.status = .pending → (∀ a ∈ l₁, a.status ≠ .pending) →
      ((processJobs s now).jobs)[l₁.length]? = some (markRunning j now)) := by
  have hi := reachable_inv hr
  constructor
  · intro i k a b hik ha hb hpa
    rw [List.getElem?_eq_some] at ha hb
    obtain ⟨hia, rfl⟩ := ha
    obtain ⟨hkb, rfl⟩ := hb
    exact (List.pairwise_iff_getElem.mp hi.fifo) i k hia hkb hik hpa
  · intro now j l₁ l₂ hcap hdec hp hnp
    unfold processJobs
    rw [hi.notProcessing]
    simp only [Bool.false_eq_true, if_false]
    obtain ⟨m, hm⟩ : ∃ m, maxConcurrentJobs - s.activeJobs = m + 1 :=
      ⟨maxConcurrentJobs - s.activeJobs - 1, by omega⟩
    rw [hm]
    show (processJobsLoop (m + 1) { s with isProcessing := true } now).jobs[l₁.length]? =
      some (markRunning j now)
    unfold processJobsLoop
    have hcap' : ({ s with isProcessing := true } : JobQueueState).activeJobs <
        maxConcurrentJobs := hcap
    simp only [hcap', if_true]
    have hstart : startFirstPending now s.jobs =
        some (l₁ ++ markRunning j now :: l₂) := by
      rw [hdec]
      exact startFirstPending_eq_of_decomp now l₁ l₂ j hnp hp
    have hstart' : startFirstPending now
        ({ s with isProcessing := true } : JobQueueState).jobs =
        some (l₁ ++ markRunning j now :: l₂) := hstart
    rw [hstart']
    have hmid : (l₁ ++ markRunning j now :: l₂)[l₁.length]? =
        some (markRunning j now) := getElem?_append_middle l₁ l₂ _
    have hrel := passRel_loop now m
      { jobs := l₁ ++ markRunning j now :: l₂, isProcessing := true,
        activeJobs := s.activeJobs + 1 }
    exact passRel_getElem?_nonpending now hrel l₁.length (markRunning j now) hmid
      (by simp [markRunning])

/-- Witness for C5 at concrete reachable states: with two pending jobs queued
behind a full pool the later one is still pending, and from the scenario state
with capacity the pass starts exactly the oldest pending job (`job_4`). -/
theorem scheduling_fifo_witness :
    ({ id := "job_6", url := "u", options := "o", status := .pending,
       progress := 0, createdAt := 7 } : ScrapingJob).status = .pending ∧
    ((processJobs fifoScenario 6).jobs)[3]? = some (markRunning job4Pending 6) :=
  ⟨(scheduling_fifo
      (addJob (addJob fifoScenario "job_5" "u" "o" none 6) "job_6" "u" "o" none 7)
      (Reachable.step (Reachable.step reachable_fifoScenario
        (Step.submit fifoScenario "job_5" "u" "o" none 6 (by decide)))
        (Step.submit (addJob fifoScenario "job_5" "u" "o" none 6)
          "job_6" "u" "o" none 7 (by decide)))).1 4 5
      { id := "job_5", url := "u", options := "o", status := .pending,
        progress := 0, createdAt := 6 }
      { id := "job_6", url := "u", options := "o", status := .pending,
        progress := 0, createdAt := 7 }
      (by decide) (by decide) (by decide) rfl,
   (scheduling_fifo fifoScenario reachable_fifoScenario).2 6 job4Pending
      (List.take 3 fifoScenario.jobs) [] (by decide) (by decide) rfl (by decide)⟩

/-- C4: the `DELETE` route on an unknown (non-empty) job id answers `notFound`
and leaves the state unchanged; on a `pending` or `running` job it answers
`conflict` (HTTP 400, "Cannot delete running or pending jobs") and leaves the
state — in particular the job itself — unchanged; on a terminal job it
answers `ok` and removes the job, so a subsequent `get` finds nothing. -/
theorem delete_route_spec (s : JobQueueState) (jobId : String)
    (hne : jobId ≠ "") (hnd : (s.jobs.map (fun x => x.id)).Nodup) :
    (getJob s jobId = none → deleteRoute s jobId = (.notFound, s)) ∧
    (∀ j, getJob s jobId = some j → (j.status = .pending ∨ j.status = .running) →
      deleteRoute s jobId = (.conflict, s)) ∧
    (∀ j, getJob s jobId = some j → (j.status = .completed ∨ j.status = .failed) →
      (deleteRoute s jobId).1 = .ok ∧
      getJob (deleteRoute s jobId).2 jobId = none) := by
  have h0 : (jobId == "") = false := by simpa using hne
  refine ⟨?_, ?_, ?_⟩
  · intro hget
    simp [deleteRoute, h0, hget]
  · intro j hget hst
    have hb : (j.status == JobStatus.running || j.status == JobStatus.pending) = true := by
      rcases hst with h | h <;> simp [h]
    simp [deleteRoute, h0, hget, hb]
  · intro j hget hst
    have hb : (j.status == JobStatus.running || j.status == JobStatus.pending) = false := by
      rcases hst with h | h <;> simp [h]
    have hroute : deleteRoute s jobId = (.ok, deleteJob s jobId) := by
      simp [deleteRoute, h0, hget, hb]
    rw [hroute]
    exact ⟨rfl, find?_eraseP_self_none jobId s.jobs hnd⟩

/-- Witness for C4 at a concrete store with one completed and one running
job. -/
theorem delete_route_spec_witness :
    deleteRoute mixedState "job_2" = (.conflict, mixedState) ∧
    (deleteRoute mixedState "job_1").1 = .ok ∧
    getJob (deleteRoute mixedState "job_1").2 "job_1" = none :=
  ⟨(delete_route_spec mixedState "job_2" (by decide) (by decide)).2.1
      job2Running (by decide) (Or.inr rfl),
   (delete_route_spec mixedState "job_1" (by decide) (by decide)).2.2
      job1Completed (by decide) (Or.inl rfl)⟩

/-- C6: the hourly sweep removes exactly the jobs that are terminal with a
`completedAt` older than the 24-hour retention window; every other job
survives unchanged (the surviving list is a sublist of the original), and in
particular a job whose `completedAt` equals the sweep time is not removed. -/
theorem cleanup_sweep_spec (s : JobQueueState) (now : Nat) (j : ScrapingJob) :
    ((cleanupOldJobs s now).jobs.Sublist s.jobs) ∧
    (j ∈ s.jobs → (j ∉ (cleanupOldJobs s now).jobs ↔
      ((j.status = .completed ∨ j.status = .failed) ∧
        ∃ t, j.completedAt = some t ∧ t < now - retentionWindowMs))) ∧
    (j ∈ s.jobs → j.completedAt = some now → j ∈ (cleanupOldJobs s now).jobs) := by
  refine ⟨List.filter_sublist _, ?_, ?_⟩
  · intro hmem
    constructor
    · intro hnot
      have hkeep : ¬ ((!sweepRemoves now j) = true) := fun hk =>
        hnot (List.mem_filter.mpr ⟨hmem, hk⟩)
      have hsw : sweepRemoves now j = true := by simpa using hkeep
      unfold sweepRemoves at hsw
      rw [Bool.and_eq_true] at hsw
      obtain ⟨hterm, hcomp⟩ := hsw
      refine ⟨by simpa using hterm, ?_⟩
      cases hc : j.completedAt with
      | none => rw [hc] at hcomp; cases hcomp
      | some t =>
        rw [hc] at hcomp
        simp only [decide_eq_true_eq] at hcomp
        exact ⟨t, rfl, hcomp⟩
    · rintro ⟨hterm, t, hct, hlt⟩ hmem'
      have hk := (List.mem_filter.mp hmem').2
      have hsw : sweepRemoves now j = true := by
        rcases hterm with h | h <;> simp [sweepRemoves, h, hct, hlt]
      rw [hsw] at hk
      cases hk
  · intro hmem hcomp
    apply List.mem_filter.mpr
    refine ⟨hmem, ?_⟩
    have hlt : ¬ (now < now - retentionWindowMs) :=
      Nat.not_lt.mpr (Nat.sub_le _ _)
    simp [sweepRemoves, hcomp, hlt]

/-- Witness for C6: at a sweep 25 hours later the completed job is removed; at
a sweep at its completion instant it survives. -/
theorem cleanup_sweep_spec_witness :
    job1Completed ∉ (cleanupOldJobs mixedState 90000000).jobs ∧
    job1Completed ∈ (cleanupOldJobs mixedState 10).jobs :=
  ⟨((cleanup_sweep_spec mixedState 90000000 job1Completed).2.1 (by decide)).mpr
      ⟨Or.inl rfl, 10, rfl, by decide⟩,
   (cleanup_sweep_spec mixedState 10 job1Completed).2.2 (by decide) rfl⟩

end WebScrapper
